import Mathlib

/-! word-triager: a shallow embedding of `word-triage.go`

The program reads a word list, asks the user once for every word that is not
yet classified and writes the three classified lists back to disk.

Modelling conventions.

* A Go `string` is a Lean `String`.  Go compares and sorts strings byte by
  byte; on UTF-8 text that order is the code point order used by `String`.
* A Go `error` is `Option GoError`: `none` is `nil`.
* `Asker` is the Go interface.  An implementation may keep private state, so
  `Ask` threads a state of type `σ`.  The ghost field `State.asked` records
  every word handed to `Ask`, in order.
* `strings.EqualFold` needs the Unicode case tables, which are library data;
  it is a parameter `EqualFold` of the definitions that use it.
  `strings.TrimSpace` only needs the `unicode.IsSpace` table and is defined.
* The file system is a `World`: the contents of the named files and the list
  of outcomes of the coming system calls (`none`: the call succeeds).
-/

namespace WordTriage

/-! ## Data model -/

/-- A Go error value is represented by its message. -/
abbrev GoError := String

/-- The Go type `WordState` is declared `type WordState int`. -/
abbrev WordState := Int

/-- The constant `Unknown WordState = iota`. -/
def Unknown : WordState := 0

/-- The constant `Known`, second of the iota block. -/
def Known : WordState := 1

/-- The constant `Skip`, third of the iota block. -/
def Skip : WordState := 2

/-- The interface `Asker`: one method `Ask(word) (WordState, error)`. -/
structure Asker (σ : Type) where
  Ask : σ → String → (WordState × Option GoError) × σ

/-- The three slices of the struct `Triager`. -/
structure Triager where
  Known : List String
  Unknown : List String
  Skip : List String
deriving DecidableEq

/-- A Triager together with the state of its embedded Asker and the log of
the words passed to `Ask` so far. -/
structure State (σ : Type) where
  t : Triager
  asker : σ
  asked : List String

/-- File contents by name, and the outcomes of the coming system calls. -/
structure World where
  files : String → Option String
  faults : List (Option GoError)

/-! ## The terminal asker -/

/-- The event types of termbox. -/
inductive EventType where
  | EventKey
  | EventResize
  | EventMouse
  | EventError
  | EventInterrupt
  | EventRaw
  | EventNone
deriving DecidableEq

/-- The fields of a termbox event that `termAsker.Ask` reads. -/
structure Event where
  Kind : EventType
  Ch : Char
  Err : Option GoError

/-- What `termAsker.Ask` returns for the event that `PollEvent` delivered.
An unrecognised key leaves the inner switch and reaches the final return. -/
def termAskerAsk (ev : Event) : WordState × Option GoError :=
  match ev.Kind with
  | .EventKey =>
    if ev.Ch = 'y' ∨ ev.Ch = 'Y' then (Known, none)
    else if ev.Ch = 'n' ∨ ev.Ch = 'N' ∨ ev.Ch = ' ' then (Unknown, none)
    else if ev.Ch = 's' ∨ ev.Ch = 'S' then (Skip, none)
    else (Unknown, some "terminated")
  | .EventError => (Unknown, ev.Err)
  | _ => (Unknown, some "terminated")

/-- The terminal asker over a stream of events: its state is the number of
events consumed. -/
def termAsker (poll : Nat → Event) : Asker Nat :=
  ⟨fun n _ => (termAskerAsk (poll n), n + 1)⟩

/-! ## Library functions -/

/-- The table of `unicode.IsSpace`. -/
def isSpace (c : Char) : Bool :=
  let n := c.toNat
  n = 0x09 || n = 0x0A || n = 0x0B || n = 0x0C || n = 0x0D || n = 0x20 ||
  n = 0x85 || n = 0xA0 || n = 0x1680 || (0x2000 ≤ n && n ≤ 0x200A) ||
  n = 0x2028 || n = 0x2029 || n = 0x202F || n = 0x205F || n = 0x3000

/-- The function `strings.TrimSpace`: leading and trailing white space removed. -/
def TrimSpace (s : String) : String :=
  String.mk ((s.data.dropWhile isSpace).rdropWhile isSpace)

/-- An instance of the parameter `EqualFold` that is exact on ASCII words:
equality after mapping `A`..`Z` to `a`..`z`. -/
def asciiEqualFold (s t : String) : Bool :=
  s.data.map Char.toLower == t.data.map Char.toLower

/-- The comparison `a <= b` of two Go strings, character by character: the
first position where they differ decides, and a proper prefix is smaller. -/
def lexLE : List Char → List Char → Bool
  | [], _ => true
  | _ :: _, [] => false
  | a :: as, b :: bs =>
    if a.toNat < b.toNat then true
    else if b.toNat < a.toNat then false
    else lexLE as bs

/-- The order that `sort.Strings` sorts by: `a` is not after `b`. -/
def strLE (a b : String) : Prop := lexLE a.data b.data = true

instance strLE.decidable : DecidableRel strLE :=
  fun a b => inferInstanceAs (Decidable (lexLE a.data b.data = true))

/-- The function `sort.Strings`: the sorted rearrangement of the slice. Two
strings that compare equal are the same string, so the result does not
depend on the sorting algorithm. -/
def sortStrings (l : List String) : List String :=
  l.insertionSort strLE

/-- Splitting a character sequence at every newline: `strings.Split(s, "\n")`
on the characters. -/
def splitLines : List Char → List (List Char)
  | [] => [[]]
  | c :: cs =>
    if c = '\n' then [] :: splitLines cs
    else
      match splitLines cs with
      | [] => [[c]]
      | l :: ls => (c :: l) :: ls

/-- The call `strings.Split(s, "\n")`. -/
def Split (s : String) : List String :=
  (splitLines s.data).map String.mk

/-! ## System calls -/

/-- The outcome of the next system call. -/
def World.sys (w : World) : Option GoError × World :=
  match w.faults with
  | [] => (none, w)
  | f :: fs => (f, { w with faults := fs })

/-- The calls `os.Open(file)` and `ioutil.ReadAll(f)` of `loadWords`. -/
def readFile (w : World) (file : String) : Except GoError String × World :=
  match w.sys with
  | (some e, w1) => (.error e, w1)
  | (none, w1) =>
    match w1.files file with
    | none => (.error ("open " ++ file ++ ": no such file or directory"), w1)
    | some buf =>
      match w1.sys with
      | (some e, w2) => (.error e, w2)
      | (none, w2) => (.ok buf, w2)

/-- The call `os.Open(inputFile)` of `run`. -/
def osOpen (w : World) (file : String) : Option GoError × World :=
  match w.sys with
  | (some e, w1) => (some e, w1)
  | (none, w1) =>
    match w1.files file with
    | none => (some ("open " ++ file ++ ": no such file or directory"), w1)
    | some _ => (none, w1)

/-- The call `os.Create(file)`: the file exists and is empty afterwards. -/
def osCreate (w : World) (file : String) : Option GoError × World :=
  match w.sys with
  | (some e, w1) => (some e, w1)
  | (none, w1) =>
    (none, { w1 with files := fun n => if n = file then some "" else w1.files n })

/-- The call `f.Write(data)`: the data is appended to the file. A failed
write leaves the file as it was. -/
def fWrite (w : World) (file data : String) : Option GoError × World :=
  match w.sys with
  | (some e, w1) => (some e, w1)
  | (none, w1) =>
    (none, { w1 with files := fun n =>
      if n = file then some ((w1.files file).getD "" ++ data) else w1.files n })

/-! ## Loading and saving -/

/-- Lines 203 to 207 of `loadWords`: split at newlines, then drop the last
entry as long as it is empty. -/
def parseWords (buf : String) : List String :=
  (Split buf).rdropWhile (fun word => word = "")

/-- The function `loadWords`. -/
def loadWords (w : World) (file : String) : Except GoError (List String) × World :=
  match readFile w file with
  | (.error e, w1) => (.error e, w1)
  | (.ok buf, w1) => (.ok (parseWords buf), w1)

/-- The loop of `saveWords`: every word is written, then one newline. -/
def writeWords (file : String) : List String → World → Option GoError × World
  | [], w => (none, w)
  | word :: rest, w =>
    match fWrite w file word with
    | (some e, w1) => (some e, w1)
    | (none, w1) =>
      match fWrite w1 file "\n" with
      | (some e, w2) => (some e, w2)
      | (none, w2) => writeWords file rest w2

/-- The function `saveWords`. -/
def saveWords (w : World) (words : List String) (file : String) :
    Option GoError × World :=
  match osCreate w file with
  | (some e, w1) => (some e, w1)
  | (none, w1) => writeWords file words w1

/-- The method `Triager.load`: a failed load keeps what was loaded before. -/
def load (t : Triager) (w : World) : Option GoError × Triager × World :=
  match loadWords w "known.txt" with
  | (.error e, w1) => (some e, { t with Known := [] }, w1)
  | (.ok known, w1) =>
    match loadWords w1 "unknown.txt" with
    | (.error e, w2) => (some e, { t with Known := known, Unknown := [] }, w2)
    | (.ok unknown, w2) =>
      match loadWords w2 "skip.txt" with
      | (.error e, w3) =>
        (some e, { Known := known, Unknown := unknown, Skip := [] }, w3)
      | (.ok skip, w3) =>
        (none, { Known := known, Unknown := unknown, Skip := skip }, w3)

/-- The method `Triager.Save`: `Known` and `Skip` are sorted in place, then
the three files are written in the order known, unknown, skip. -/
def Save (t : Triager) (w : World) : Option GoError × Triager × World :=
  let t1 : Triager := { t with Known := sortStrings t.Known }
  let t2 : Triager := { t1 with Skip := sortStrings t1.Skip }
  match saveWords w t2.Known "known.txt" with
  | (some e, w1) => (some e, t2, w1)
  | (none, w1) =>
    match saveWords w1 t2.Unknown "unknown.txt" with
    | (some e, w2) => (some e, t2, w2)
    | (none, w2) =>
      match saveWords w2 t2.Skip "skip.txt" with
      | (some e, w3) => (some e, t2, w3)
      | (none, w3) => (none, t2, w3)

/-! ## Triage -/

/-- The function `in`: some entry of `words` equals `word` up to case. -/
def in_ (EqualFold : String → String → Bool) (word : String) : List String → Bool
  | [] => false
  | w :: words => if EqualFold word w then true else in_ EqualFold word words

/-- The method `Triager.Triage`. -/
def Triage {σ : Type} (EqualFold : String → String → Bool) (A : Asker σ)
    (s : State σ) (word : String) : Option GoError × State σ :=
  if in_ EqualFold word s.t.Known || in_ EqualFold word s.t.Unknown
      || in_ EqualFold word s.t.Skip then
    (none, s)
  else
    match A.Ask s.asker word with
    | ((state, err), a1) =>
      let s1 : State σ := { s with asker := a1, asked := s.asked ++ [word] }
      match err with
      | some e => (some e, s1)
      | none =>
        if state = Known then
          (none, { s1 with t := { s1.t with Known := s1.t.Known ++ [word] } })
        else if state = Unknown then
          (none, { s1 with t := { s1.t with Unknown := s1.t.Unknown ++ [word] } })
        else if state = Skip then
          (none, { s1 with t := { s1.t with Skip := s1.t.Skip ++ [word] } })
        else
          (none, s1)

/-! ## Vocabulary of the statements -/

/-- Triage applied to every word of the list in order, whatever each call
returns. -/
def triageEach {σ : Type} (EqualFold : String → String → Bool) (A : Asker σ)
    (s : State σ) (words : List String) : State σ :=
  words.foldl (fun s w => (Triage EqualFold A s w).2) s

/-- The number of entries of a collection that match the word up to case. -/
def matchCount (EqualFold : String → String → Bool) (x : String) (l : List String) : Nat :=
  l.countP (fun e => EqualFold x e)

/-- The text of a word file: every word followed by one newline. -/
def fileText : List String → String
  | [] => ""
  | word :: rest => word ++ "\n" ++ fileText rest

/-- A disk that holds the three word files with the given contents and an
input file `words.txt`; every system call succeeds. -/
def disk (known unknown skip : String) : World :=
  ⟨fun n =>
    if n = "known.txt" then some known
    else if n = "unknown.txt" then some unknown
    else if n = "skip.txt" then some skip
    else if n = "words.txt" then some ""
    else none, []⟩

/-- The terminal on which the keys of the list are pressed in order, and
`q` ever after. -/
def keys (l : List Char) : Nat → Event :=
  fun n => ⟨.EventKey, l.getD n 'q', none⟩

/-! ## The driver -/

/-- The scanner loop of `run` over the lines the scanner yields. When Triage
fails, `Save` is called, its result is dropped and the error is returned. -/
def scanLoop {σ : Type} (EqualFold : String → String → Bool) (A : Asker σ) :
    List String → State σ → World → Option GoError × State σ × World
  | [], s, w => (none, s, w)
  | line :: rest, s, w =>
    let word := TrimSpace line
    if word = "" then scanLoop EqualFold A rest s w
    else
      match Triage EqualFold A s word with
      | (some err, s1) =>
        match Save s1.t w with
        | (_, t2, w2) => (some err, { s1 with t := t2 }, w2)
      | (none, s1) => scanLoop EqualFold A rest s1 w

/-- The function `run`. `initErr` is the result of `termbox.Init`, `a` the
initial state of the asker, `lines` the tokens that `scanner.Scan` yields and
`scanErr` the value of `scanner.Err()` once `Scan` has returned false. The
variable `err` of the function body is last assigned by `os.Open`. -/
def run {σ : Type} (EqualFold : String → String → Bool) (A : Asker σ)
    (initErr : Option GoError) (a : σ) (w : World) (inputFile : String)
    (lines : List String) (scanErr : Option GoError) :
    Option GoError × State σ × World :=
  let s0 : State σ := { t := { Known := [], Unknown := [], Skip := [] }, asker := a, asked := [] }
  match initErr with
  | some e => (some e, s0, w)
  | none =>
    match load s0.t w with
    | (some e, t1, w1) => (some e, { s0 with t := t1 }, w1)
    | (none, t1, w1) =>
      let s1 : State σ := { s0 with t := t1 }
      match osOpen w1 inputFile with
      | (err, w2) =>
        if err ≠ none then (err, s1, w2)
        else
          match scanLoop EqualFold A lines s1 w2 with
          | (some e, s2, w3) => (some e, s2, w3)
          | (none, s2, w3) =>
            if scanErr ≠ none then (err, s2, w3)
            else
              match Save s2.t w3 with
              | (some e, t3, w4) => (some e, { s2 with t := t3 }, w4)
              | (none, t3, w4) => (none, { s2 with t := t3 }, w4)

/-! ## Membership up to case -/

theorem in_eq_true_iff (EqualFold : String → String → Bool) (word : String)
    (words : List String) :
    in_ EqualFold word words = true ↔ ∃ e ∈ words, EqualFold word e = true := by
  induction words with
  | nil => simp [in_]
  | cons x xs ih =>
    by_cases hx : EqualFold word x = true
    · simp [in_, hx]
    · simp [in_, hx, ih]

theorem in_eq_false_iff (EqualFold : String → String → Bool) (word : String)
    (words : List String) :
    in_ EqualFold word words = false ↔ ∀ e ∈ words, EqualFold word e = false := by
  induction words with
  | nil => simp [in_]
  | cons x xs ih =>
    by_cases hx : EqualFold word x = true
    · simp [in_, hx]
    · simp [in_, hx, ih]

theorem in_append (EqualFold : String → String → Bool) (word : String)
    (xs ys : List String) :
    in_ EqualFold word (xs ++ ys)
      = (in_ EqualFold word xs || in_ EqualFold word ys) := by
  induction xs with
  | nil => simp [in_]
  | cons x xs ih =>
    by_cases hx : EqualFold word x = true
    · simp [in_, hx]
    · simp [in_, hx, ih]

/-! ## One call of Triage -/

/-- C1. A word that matches an entry of Known, Unknown or Skip up to case is
a no-op for Triage: nil is returned, the Asker is not called (its state and
the log of asked words are unchanged) and the three collections are as
they were. -/
theorem triage_classified_is_noop {σ : Type} (EqualFold : String → String → Bool)
    (A : Asker σ) (s : State σ) (w e : String)
    (hmem : e ∈ s.t.Known ∨ e ∈ s.t.Unknown ∨ e ∈ s.t.Skip)
    (hfold : EqualFold w e = true) :
    Triage EqualFold A s w = (none, s) := by
  have h : (in_ EqualFold w s.t.Known || in_ EqualFold w s.t.Unknown
      || in_ EqualFold w s.t.Skip) = true := by
    rcases hmem with h | h | h
    · have := (in_eq_true_iff EqualFold w s.t.Known).2 ⟨e, h, hfold⟩
      simp [this]
    · have := (in_eq_true_iff EqualFold w s.t.Unknown).2 ⟨e, h, hfold⟩
      simp [this]
    · have := (in_eq_true_iff EqualFold w s.t.Skip).2 ⟨e, h, hfold⟩
      simp [this]
  unfold Triage
  rw [if_pos h]

/-- With `known.txt` holding `Apple`, triaging `APPLE` changes nothing. -/
theorem triage_classified_is_noop_witness :
    ("Apple" ∈ ["Apple"] ∨ "Apple" ∈ ([] : List String) ∨ "Apple" ∈ ([] : List String))
    ∧ asciiEqualFold "APPLE" "Apple" = true
    ∧ Triage asciiEqualFold (termAsker (fun _ => ⟨.EventKey, 'n', none⟩))
        ⟨⟨["Apple"], [], []⟩, 0, []⟩ "APPLE"
      = (none, ⟨⟨["Apple"], [], []⟩, 0, []⟩) :=
  ⟨by decide, by decide,
    triage_classified_is_noop asciiEqualFold (termAsker (fun _ => ⟨.EventKey, 'n', none⟩))
      ⟨⟨["Apple"], [], []⟩, 0, []⟩ "APPLE" "Apple" (by decide) (by decide)⟩

theorem triage_not_in {σ : Type} (EqualFold : String → String → Bool)
    (s : State σ) (w : String)
    (hno : ∀ e ∈ s.t.Known ++ s.t.Unknown ++ s.t.Skip, EqualFold w e = false) :
    (in_ EqualFold w s.t.Known || in_ EqualFold w s.t.Unknown
      || in_ EqualFold w s.t.Skip) = false := by
  have h := (in_eq_false_iff EqualFold w _).2 hno
  simp only [in_append, Bool.or_eq_false_iff] at h
  simp [h.1.1, h.1.2, h.2]

/-- C2. For a word that matches no entry up to case, when the Asker answers
`st` without error, Triage returns nil and appends the word, unchanged, at
the end of the collection named by `st` (Known, Unknown or Skip); the other
two collections stay as they were. -/
theorem triage_appends_to_answer {σ : Type} (EqualFold : String → String → Bool)
    (A : Asker σ) (s : State σ) (w : String) (st : WordState) (a1 : σ)
    (hno : ∀ e ∈ s.t.Known ++ s.t.Unknown ++ s.t.Skip, EqualFold w e = false)
    (hask : A.Ask s.asker w = ((st, none), a1)) :
    (st = Known → Triage EqualFold A s w
      = (none, ⟨⟨s.t.Known ++ [w], s.t.Unknown, s.t.Skip⟩, a1, s.asked ++ [w]⟩))
    ∧ (st = Unknown → Triage EqualFold A s w
      = (none, ⟨⟨s.t.Known, s.t.Unknown ++ [w], s.t.Skip⟩, a1, s.asked ++ [w]⟩))
    ∧ (st = Skip → Triage EqualFold A s w
      = (none, ⟨⟨s.t.Known, s.t.Unknown, s.t.Skip ++ [w]⟩, a1, s.asked ++ [w]⟩)) := by
  have h := triage_not_in EqualFold s w hno
  refine ⟨?_, ?_, ?_⟩ <;> intro hst <;> subst hst <;>
    simp [Triage, h, hask, Known, Unknown, Skip]

/-- The key `s` on an empty Triager puts the word into Skip only. -/
theorem triage_appends_to_answer_witness :
    (∀ e ∈ ["tree"] ++ ([] : List String) ++ ["Moss"], asciiEqualFold "Fern" e = false)
    ∧ Triage asciiEqualFold (termAsker (fun _ => ⟨.EventKey, 's', none⟩))
        ⟨⟨["tree"], [], ["Moss"]⟩, 0, []⟩ "Fern"
      = (none, ⟨⟨["tree"], [], ["Moss", "Fern"]⟩, 1, ["Fern"]⟩) :=
  ⟨by decide,
    (triage_appends_to_answer asciiEqualFold (termAsker (fun _ => ⟨.EventKey, 's', none⟩))
      ⟨⟨["tree"], [], ["Moss"]⟩, 0, []⟩ "Fern" Skip 1 (by decide) rfl).2.2 rfl⟩

theorem triage_propagates_asker_error_core {σ : Type}
    (EqualFold : String → String → Bool)
    (A : Asker σ) (s : State σ) (w : String) (st : WordState) (err : GoError) (a1 : σ)
    (hno : ∀ e ∈ s.t.Known ++ s.t.Unknown ++ s.t.Skip, EqualFold w e = false)
    (hask : A.Ask s.asker w = ((st, some err), a1)) :
    Triage EqualFold A s w = (some err, ⟨s.t, a1, s.asked ++ [w]⟩) := by
  have h := triage_not_in EqualFold s w hno
  simp [Triage, h, hask]

/-- C3. For a word that matches no entry up to case, when the Asker returns
an error, Triage returns that same error and Known, Unknown and Skip are
unchanged, whatever WordState came with the error. -/
theorem triage_propagates_asker_error {σ : Type} (EqualFold : String → String → Bool)
    (A : Asker σ) (s : State σ) (w : String) (st : WordState) (err : GoError) (a1 : σ)
    (hno : ∀ e ∈ s.t.Known ++ s.t.Unknown ++ s.t.Skip, EqualFold w e = false)
    (hask : A.Ask s.asker w = ((st, some err), a1)) :
    Triage EqualFold A s w = (some err, ⟨s.t, a1, s.asked ++ [w]⟩) := by
  have h := triage_not_in EqualFold s w hno
  simp [Triage, h, hask]

/-- The terminal reports an input error together with the state Unknown: the
word is not added to Unknown. -/
theorem triage_propagates_asker_error_witness :
    (∀ e ∈ ["tree"] ++ ([] : List String) ++ ["Moss"], asciiEqualFold "Fern" e = false)
    ∧ Triage asciiEqualFold (termAsker (fun _ => ⟨.EventError, 'x', some "read failed"⟩))
        ⟨⟨["tree"], [], ["Moss"]⟩, 0, []⟩ "Fern"
      = (some "read failed", ⟨⟨["tree"], [], ["Moss"]⟩, 1, ["Fern"]⟩) :=
  ⟨by decide,
    triage_propagates_asker_error asciiEqualFold
      (termAsker (fun _ => ⟨.EventError, 'x', some "read failed"⟩))
      ⟨⟨["tree"], [], ["Moss"]⟩, 0, []⟩ "Fern" Unknown "read failed" 1 (by decide) rfl⟩

/-! ## A whole pass: every prompted word is classified exactly once -/

theorem triage_step {σ : Type} (EqualFold : String → String → Bool) (A : Asker σ)
    (hans : ∀ a w, (A.Ask a w).1.2 = none
      ∧ ((A.Ask a w).1.1 = Known ∨ (A.Ask a w).1.1 = Unknown ∨ (A.Ask a w).1.1 = Skip))
    (s : State σ) (w : String) :
    (Triage EqualFold A s w).2 = s
    ∨ ((∀ e ∈ s.t.Known ++ s.t.Unknown ++ s.t.Skip, EqualFold w e = false)
      ∧ (Triage EqualFold A s w).2.asked = s.asked ++ [w]
      ∧ ((Triage EqualFold A s w).2.t = ⟨s.t.Known ++ [w], s.t.Unknown, s.t.Skip⟩
        ∨ (Triage EqualFold A s w).2.t = ⟨s.t.Known, s.t.Unknown ++ [w], s.t.Skip⟩
        ∨ (Triage EqualFold A s w).2.t = ⟨s.t.Known, s.t.Unknown, s.t.Skip ++ [w]⟩)) := by
  by_cases hin : (in_ EqualFold w s.t.Known || in_ EqualFold w s.t.Unknown
      || in_ EqualFold w s.t.Skip) = true
  · left
    simp [Triage, hin]
  · right
    have hin2 : (in_ EqualFold w s.t.Known || in_ EqualFold w s.t.Unknown
      || in_ EqualFold w s.t.Skip) = false := by simpa using hin
    have hno : ∀ e ∈ s.t.Known ++ s.t.Unknown ++ s.t.Skip, EqualFold w e = false := by
      apply (in_eq_false_iff EqualFold w _).1
      simp only [Bool.or_eq_false_iff] at hin2
      simp [in_append, hin2.1.1, hin2.1.2, hin2.2]
    refine ⟨hno, ?_⟩
    obtain ⟨herr, hst⟩ := hans s.asker w
    rcases hask : A.Ask s.asker w with ⟨⟨st, err⟩, a1⟩
    rw [hask] at herr hst
    simp only at herr hst
    subst herr
    rcases hst with h | h | h <;> subst h <;>
      simp [Triage, hin2, hask, Known, Unknown, Skip]

theorem collections_perm_of_step (t t1 : Triager) (w : String)
    (h : t1 = ⟨t.Known ++ [w], t.Unknown, t.Skip⟩
      ∨ t1 = ⟨t.Known, t.Unknown ++ [w], t.Skip⟩
      ∨ t1 = ⟨t.Known, t.Unknown, t.Skip ++ [w]⟩) :
    (t1.Known ++ t1.Unknown ++ t1.Skip).Perm (w :: (t.Known ++ t.Unknown ++ t.Skip)) := by
  rcases h with h | h | h <;> subst h
  · simp [List.append_assoc]
  · have := @List.perm_middle String w (t.Known ++ t.Unknown) t.Skip
    simpa [List.append_assoc] using this
  · have := @List.perm_middle String w (t.Known ++ t.Unknown ++ t.Skip) []
    simpa [List.append_assoc] using this

theorem prompted_inv_step {σ : Type} (EqualFold : String → String → Bool) (A : Asker σ)
    (hrefl : ∀ x, EqualFold x x = true)
    (hsymm : ∀ x y, EqualFold x y = EqualFold y x)
    (hans : ∀ a w, (A.Ask a w).1.2 = none
      ∧ ((A.Ask a w).1.1 = Known ∨ (A.Ask a w).1.1 = Unknown ∨ (A.Ask a w).1.1 = Skip))
    (s : State σ) (w : String)
    (hinv : ∀ x ∈ s.asked, x ∈ s.t.Known ++ s.t.Unknown ++ s.t.Skip
      ∧ List.countP (fun e => EqualFold x e) (s.t.Known ++ s.t.Unknown ++ s.t.Skip) = 1) :
    ∀ x ∈ (Triage EqualFold A s w).2.asked,
      x ∈ (Triage EqualFold A s w).2.t.Known ++ (Triage EqualFold A s w).2.t.Unknown
          ++ (Triage EqualFold A s w).2.t.Skip
      ∧ List.countP (fun e => EqualFold x e)
          ((Triage EqualFold A s w).2.t.Known ++ (Triage EqualFold A s w).2.t.Unknown
            ++ (Triage EqualFold A s w).2.t.Skip) = 1 := by
  rcases triage_step EqualFold A hans s w with h | ⟨hno, hasked, ht⟩
  · rw [h]; exact hinv
  · have hperm := collections_perm_of_step s.t _ w ht
    intro x hx
    rw [hasked] at hx
    rw [hperm.mem_iff, hperm.countP_eq]
    rcases List.mem_append.1 hx with hx | hx
    · obtain ⟨hmem, hcnt⟩ := hinv x hx
      refine ⟨List.mem_cons_of_mem _ hmem, ?_⟩
      have hxw : EqualFold x w = false := by rw [hsymm]; exact hno x hmem
      rw [List.countP_cons_of_neg _ _ (by simp [hxw])]
      exact hcnt
    · have hxw : x = w := by simpa using hx
      subst hxw
      refine ⟨List.mem_cons_self _ _, ?_⟩
      rw [List.countP_cons_of_pos _ _ (by simp [hrefl])]
      have : List.countP (fun e => EqualFold x e)
          (s.t.Known ++ s.t.Unknown ++ s.t.Skip) = 0 := by
        rw [List.countP_eq_zero]
        intro e he
        simp [hno e he]
      rw [this]

theorem prompted_inv_fold {σ : Type} (EqualFold : String → String → Bool) (A : Asker σ)
    (hrefl : ∀ x, EqualFold x x = true)
    (hsymm : ∀ x y, EqualFold x y = EqualFold y x)
    (hans : ∀ a w, (A.Ask a w).1.2 = none
      ∧ ((A.Ask a w).1.1 = Known ∨ (A.Ask a w).1.1 = Unknown ∨ (A.Ask a w).1.1 = Skip))
    (words : List String) :
    ∀ s : State σ,
      (∀ x ∈ s.asked, x ∈ s.t.Known ++ s.t.Unknown ++ s.t.Skip
        ∧ List.countP (fun e => EqualFold x e) (s.t.Known ++ s.t.Unknown ++ s.t.Skip) = 1) →
      ∀ x ∈ (words.foldl (fun s w => (Triage EqualFold A s w).2) s).asked,
        x ∈ (words.foldl (fun s w => (Triage EqualFold A s w).2) s).t.Known
            ++ (words.foldl (fun s w => (Triage EqualFold A s w).2) s).t.Unknown
            ++ (words.foldl (fun s w => (Triage EqualFold A s w).2) s).t.Skip
        ∧ List.countP (fun e => EqualFold x e)
            ((words.foldl (fun s w => (Triage EqualFold A s w).2) s).t.Known
              ++ (words.foldl (fun s w => (Triage EqualFold A s w).2) s).t.Unknown
              ++ (words.foldl (fun s w => (Triage EqualFold A s w).2) s).t.Skip) = 1 := by
  induction words with
  | nil => intro s hinv; simpa using hinv
  | cons w rest ih =>
    intro s hinv
    simp only [List.foldl_cons]
    exact ih _ (prompted_inv_step EqualFold A hrefl hsymm hans s w hinv)

/-- C4. Let the Asker always answer Known, Unknown or Skip without error,
and let `EqualFold` be reflexive and symmetric, as `strings.EqualFold` is.
After Triage has been applied to every input word in order, from any
starting collections, every word the Asker was called for is an entry of
exactly one collection, and up to case it has exactly one match there and
none in the other two. -/
theorem prompted_word_in_exactly_one {σ : Type} (EqualFold : String → String → Bool)
    (A : Asker σ)
    (hrefl : ∀ x, EqualFold x x = true)
    (hsymm : ∀ x y, EqualFold x y = EqualFold y x)
    (hans : ∀ a w, (A.Ask a w).1.2 = none
      ∧ ((A.Ask a w).1.1 = Known ∨ (A.Ask a w).1.1 = Unknown ∨ (A.Ask a w).1.1 = Skip))
    (t : Triager) (a : σ) (words : List String) :
    ∀ x ∈ (triageEach EqualFold A ⟨t, a, []⟩ words).asked,
      (x ∈ (triageEach EqualFold A ⟨t, a, []⟩ words).t.Known
        ∧ matchCount EqualFold x (triageEach EqualFold A ⟨t, a, []⟩ words).t.Known = 1
        ∧ matchCount EqualFold x (triageEach EqualFold A ⟨t, a, []⟩ words).t.Unknown = 0
        ∧ matchCount EqualFold x (triageEach EqualFold A ⟨t, a, []⟩ words).t.Skip = 0)
      ∨ (x ∈ (triageEach EqualFold A ⟨t, a, []⟩ words).t.Unknown
        ∧ matchCount EqualFold x (triageEach EqualFold A ⟨t, a, []⟩ words).t.Known = 0
        ∧ matchCount EqualFold x (triageEach EqualFold A ⟨t, a, []⟩ words).t.Unknown = 1
        ∧ matchCount EqualFold x (triageEach EqualFold A ⟨t, a, []⟩ words).t.Skip = 0)
      ∨ (x ∈ (triageEach EqualFold A ⟨t, a, []⟩ words).t.Skip
        ∧ matchCount EqualFold x (triageEach EqualFold A ⟨t, a, []⟩ words).t.Known = 0
        ∧ matchCount EqualFold x (triageEach EqualFold A ⟨t, a, []⟩ words).t.Unknown = 0
        ∧ matchCount EqualFold x (triageEach EqualFold A ⟨t, a, []⟩ words).t.Skip = 1) := by
  intro x hx
  unfold triageEach at hx
  unfold triageEach matchCount
  obtain ⟨hmem, hcnt⟩ := prompted_inv_fold EqualFold A hrefl hsymm hans words ⟨t, a, []⟩
    (by intro x hx; simp at hx) x hx
  generalize (words.foldl (fun s w => (Triage EqualFold A s w).2) ⟨t, a, []⟩).t = r at hmem hcnt ⊢
  simp only [List.countP_append] at hcnt
  have hpos : ∀ l : List String, x ∈ l → 0 < List.countP (fun e => EqualFold x e) l :=
    fun l hl => List.countP_pos_iff.2 ⟨x, hl, hrefl x⟩
  simp only [List.mem_append] at hmem
  rcases hmem with (h | h) | h
  · have := hpos _ h
    exact Or.inl ⟨h, by omega, by omega, by omega⟩
  · have := hpos _ h
    exact Or.inr (Or.inl ⟨h, by omega, by omega, by omega⟩)
  · have := hpos _ h
    exact Or.inr (Or.inr ⟨h, by omega, by omega, by omega⟩)

theorem asciiEqualFold_refl (x : String) : asciiEqualFold x x = true := by
  simp [asciiEqualFold]

theorem asciiEqualFold_symm (x y : String) : asciiEqualFold x y = asciiEqualFold y x := by
  simp only [asciiEqualFold]
  exact Bool.beq_comm

theorem termAsker_y_answers (a : Nat) (w : String) :
    ((termAsker (fun _ => ⟨.EventKey, 'y', none⟩)).Ask a w).1.2 = none
    ∧ (((termAsker (fun _ => ⟨.EventKey, 'y', none⟩)).Ask a w).1.1 = Known
      ∨ ((termAsker (fun _ => ⟨.EventKey, 'y', none⟩)).Ask a w).1.1 = Unknown
      ∨ ((termAsker (fun _ => ⟨.EventKey, 'y', none⟩)).Ask a w).1.1 = Skip) :=
  ⟨rfl, Or.inl rfl⟩

/-- Starting from Unknown holding `Apple`, the words `apple`, `pear`, `PEAR`
and `fig` with the key `y` pressed at every prompt: `pear` and `fig` are
asked, and each ends up once in Known and nowhere else. -/
theorem prompted_word_in_exactly_one_witness :
    (triageEach asciiEqualFold (termAsker (fun _ => ⟨.EventKey, 'y', none⟩))
        ⟨⟨[], ["Apple"], []⟩, 0, []⟩ ["apple", "pear", "PEAR", "fig"]).asked = ["pear", "fig"]
    ∧ (triageEach asciiEqualFold (termAsker (fun _ => ⟨.EventKey, 'y', none⟩))
        ⟨⟨[], ["Apple"], []⟩, 0, []⟩ ["apple", "pear", "PEAR", "fig"]).t = ⟨["pear", "fig"], ["Apple"], []⟩
    ∧ ∀ x ∈ (triageEach asciiEqualFold (termAsker (fun _ => ⟨.EventKey, 'y', none⟩))
        ⟨⟨[], ["Apple"], []⟩, 0, []⟩ ["apple", "pear", "PEAR", "fig"]).asked,
      (x ∈ (triageEach asciiEqualFold (termAsker (fun _ => ⟨.EventKey, 'y', none⟩))
        ⟨⟨[], ["Apple"], []⟩, 0, []⟩ ["apple", "pear", "PEAR", "fig"]).t.Known
        ∧ matchCount asciiEqualFold x (triageEach asciiEqualFold (termAsker (fun _ => ⟨.EventKey, 'y', none⟩))
        ⟨⟨[], ["Apple"], []⟩, 0, []⟩ ["apple", "pear", "PEAR", "fig"]).t.Known = 1
        ∧ matchCount asciiEqualFold x (triageEach asciiEqualFold (termAsker (fun _ => ⟨.EventKey, 'y', none⟩))
        ⟨⟨[], ["Apple"], []⟩, 0, []⟩ ["apple", "pear", "PEAR", "fig"]).t.Unknown = 0
        ∧ matchCount asciiEqualFold x (triageEach asciiEqualFold (termAsker (fun _ => ⟨.EventKey, 'y', none⟩))
        ⟨⟨[], ["Apple"], []⟩, 0, []⟩ ["apple", "pear", "PEAR", "fig"]).t.Skip = 0)
      ∨ (x ∈ (triageEach asciiEqualFold (termAsker (fun _ => ⟨.EventKey, 'y', none⟩))
        ⟨⟨[], ["Apple"], []⟩, 0, []⟩ ["apple", "pear", "PEAR", "fig"]).t.Unknown
        ∧ matchCount asciiEqualFold x (triageEach asciiEqualFold (termAsker (fun _ => ⟨.EventKey, 'y', none⟩))
        ⟨⟨[], ["Apple"], []⟩, 0, []⟩ ["apple", "pear", "PEAR", "fig"]).t.Known = 0
        ∧ matchCount asciiEqualFold x (triageEach asciiEqualFold (termAsker (fun _ => ⟨.EventKey, 'y', none⟩))
        ⟨⟨[], ["Apple"], []⟩, 0, []⟩ ["apple", "pear", "PEAR", "fig"]).t.Unknown = 1
        ∧ matchCount asciiEqualFold x (triageEach asciiEqualFold (termAsker (fun _ => ⟨.EventKey, 'y', none⟩))
        ⟨⟨[], ["Apple"], []⟩, 0, []⟩ ["apple", "pear", "PEAR", "fig"]).t.Skip = 0)
      ∨ (x ∈ (triageEach asciiEqualFold (termAsker (fun _ => ⟨.EventKey, 'y', none⟩))
        ⟨⟨[], ["Apple"], []⟩, 0, []⟩ ["apple", "pear", "PEAR", "fig"]).t.Skip
        ∧ matchCount asciiEqualFold x (triageEach asciiEqualFold (termAsker (fun _ => ⟨.EventKey, 'y', none⟩))
        ⟨⟨[], ["Apple"], []⟩, 0, []⟩ ["apple", "pear", "PEAR", "fig"]).t.Known = 0
        ∧ matchCount asciiEqualFold x (triageEach asciiEqualFold (termAsker (fun _ => ⟨.EventKey, 'y', none⟩))
        ⟨⟨[], ["Apple"], []⟩, 0, []⟩ ["apple", "pear", "PEAR", "fig"]).t.Unknown = 0
        ∧ matchCount asciiEqualFold x (triageEach asciiEqualFold (termAsker (fun _ => ⟨.EventKey, 'y', none⟩))
        ⟨⟨[], ["Apple"], []⟩, 0, []⟩ ["apple", "pear", "PEAR", "fig"]).t.Skip = 1) :=
  ⟨by decide, by decide,
    prompted_word_in_exactly_one asciiEqualFold (termAsker (fun _ => ⟨.EventKey, 'y', none⟩))
      asciiEqualFold_refl asciiEqualFold_symm termAsker_y_answers
      ⟨[], ["Apple"], []⟩ 0 ["apple", "pear", "PEAR", "fig"]⟩

/-! ## The order of `sort.Strings` -/

theorem lexLE_total : ∀ a b : List Char, lexLE a b = true ∨ lexLE b a = true
  | [], _ => Or.inl (by simp [lexLE])
  | _ :: _, [] => Or.inr (by simp [lexLE])
  | a :: as, b :: bs => by
    rcases Nat.lt_trichotomy a.toNat b.toNat with h | h | h
    · left; simp [lexLE, h]
    · rcases lexLE_total as bs with ih | ih
      · left; simp [lexLE, h, ih]
      · right; simp [lexLE, h, ih]
    · right; simp [lexLE, h]

theorem lexLE_trans : ∀ a b c : List Char,
    lexLE a b = true → lexLE b c = true → lexLE a c = true
  | [], _, _ => fun _ _ => by simp [lexLE]
  | _ :: _, [], _ => fun h _ => by simp [lexLE] at h
  | _ :: _, _ :: _, [] => fun _ h => by simp [lexLE] at h
  | a :: as, b :: bs, c :: cs => fun hab hbc => by
    simp only [lexLE] at hab hbc ⊢
    by_cases h1 : a.toNat < b.toNat
    · by_cases h2 : b.toNat < c.toNat
      · have : a.toNat < c.toNat := by omega
        simp [this]
      · by_cases h3 : c.toNat < b.toNat
        · simp [h2, h3] at hbc
        · have : a.toNat < c.toNat := by omega
          simp [this]
    · by_cases h1b : b.toNat < a.toNat
      · simp [h1, h1b] at hab
      · simp only [h1, h1b, if_false] at hab
        by_cases h2 : b.toNat < c.toNat
        · have : a.toNat < c.toNat := by omega
          simp [this]
        · by_cases h3 : c.toNat < b.toNat
          · simp [h2, h3] at hbc
          · simp only [h2, h3, if_false] at hbc
            have e1 : ¬ a.toNat < c.toNat := by omega
            have e2 : ¬ c.toNat < a.toNat := by omega
            simp only [e1, e2, if_false]
            exact lexLE_trans as bs cs hab hbc

instance strLE.isTotal : IsTotal String strLE :=
  ⟨fun a b => lexLE_total a.data b.data⟩

instance strLE.isTrans : IsTrans String strLE :=
  ⟨fun a b c => lexLE_trans a.data b.data c.data⟩

theorem sortStrings_sorted (l : List String) : (sortStrings l).Sorted strLE :=
  List.sorted_insertionSort strLE l

theorem sortStrings_perm (l : List String) : (sortStrings l).Perm l :=
  List.perm_insertionSort strLE l

/-! ## Writing a word file -/

theorem sys_files (w : World) : w.sys.2.files = w.files := by
  unfold World.sys
  cases w.faults <;> rfl

theorem fWrite_files (w w1 : World) (file data : String)
    (h : fWrite w file data = (none, w1)) :
    w1.files = fun n =>
      if n = file then some ((w.files file).getD "" ++ data) else w.files n := by
  unfold fWrite at h
  have hs := sys_files w
  rcases hsys : w.sys with ⟨e, w0⟩
  rw [hsys] at h hs
  cases e with
  | some e => simp at h
  | none =>
    simp only [Prod.mk.injEq, true_and] at h
    subst h
    simp only at hs
    simp [hs]

theorem osCreate_files (w w1 : World) (file : String)
    (h : osCreate w file = (none, w1)) :
    w1.files = fun n => if n = file then some "" else w.files n := by
  unfold osCreate at h
  have hs := sys_files w
  rcases hsys : w.sys with ⟨e, w0⟩
  rw [hsys] at h hs
  cases e with
  | some e => simp at h
  | none =>
    simp only [Prod.mk.injEq, true_and] at h
    subst h
    simp only at hs
    simp [hs]

theorem writeWords_files (file : String) : ∀ (words : List String) (w w1 : World)
    (c : String), w.files file = some c →
    writeWords file words w = (none, w1) →
    w1.files = fun n =>
      if n = file then some (c ++ fileText words) else w.files n
  | [], w, w1, c, hc, h => by
    simp only [writeWords, Prod.mk.injEq, true_and] at h
    subst h
    funext n
    by_cases hn : n = file
    · subst hn
      simp [fileText, hc]
    · simp [hn]
  | word :: rest, w, w1, c, hc, h => by
    simp only [writeWords] at h
    rcases h1 : fWrite w file word with ⟨e1, wa⟩
    rw [h1] at h
    cases e1 with
    | some e => simp at h
    | none =>
      simp only at h
      rcases h2 : fWrite wa file "\n" with ⟨e2, wb⟩
      rw [h2] at h
      cases e2 with
      | some e => simp at h
      | none =>
        simp only at h
        have ha := fWrite_files w wa file word h1
        have hb := fWrite_files wa wb file "\n" h2
        have hwb : wb.files file = some (c ++ word ++ "\n") := by
          rw [hb, ha]; simp [hc]
        have hd := writeWords_files file rest wb w1 _ hwb h
        rw [hd, hb, ha]
        funext n
        by_cases hn : n = file
        · simp [hn, fileText, String.append_assoc]
        · simp [hn]

theorem saveWords_files (w w1 : World) (words : List String) (file : String)
    (h : saveWords w words file = (none, w1)) :
    w1.files = fun n => if n = file then some (fileText words) else w.files n := by
  unfold saveWords at h
  rcases h1 : osCreate w file with ⟨e1, wa⟩
  rw [h1] at h
  cases e1 with
  | some e => simp at h
  | none =>
    simp only at h
    have ha := osCreate_files w wa file h1
    have hwa : wa.files file = some "" := by rw [ha]; simp
    have hb := writeWords_files file words wa w1 "" hwa h
    rw [hb, ha]
    funext n
    by_cases hn : n = file
    · simp [hn]
    · simp [hn]

theorem save_ok (t : Triager) (w : World) (h : (Save t w).1 = none) :
    ∃ w1 w2 w3,
      saveWords w (sortStrings t.Known) "known.txt" = (none, w1)
      ∧ saveWords w1 t.Unknown "unknown.txt" = (none, w2)
      ∧ saveWords w2 (sortStrings t.Skip) "skip.txt" = (none, w3)
      ∧ Save t w = (none, ⟨sortStrings t.Known, t.Unknown, sortStrings t.Skip⟩, w3) := by
  unfold Save at h
  simp only at h
  rcases h1 : saveWords w (sortStrings t.Known) "known.txt" with ⟨e1, w1⟩
  rw [h1] at h
  cases e1 with
  | some e => simp at h
  | none =>
    simp only at h
    rcases h2 : saveWords w1 t.Unknown "unknown.txt" with ⟨e2, w2⟩
    rw [h2] at h
    cases e2 with
    | some e => simp at h
    | none =>
      simp only at h
      rcases h3 : saveWords w2 (sortStrings t.Skip) "skip.txt" with ⟨e3, w3⟩
      rw [h3] at h
      cases e3 with
      | some e => simp at h
      | none =>
        refine ⟨w1, w2, w3, rfl, h2, h3, ?_⟩
        unfold Save
        simp only [h1, h2, h3]

/-- C5. When Save returns nil, so that every create and write succeeded,
`known.txt` holds the text of a rearrangement of Known that is
non-decreasing in the order of `sort.Strings`, `skip.txt` holds the text of
such a rearrangement of Skip, and `unknown.txt` holds the text of Unknown in
the order it has. -/
theorem save_writes_sorted_known_skip (t : Triager) (w : World)
    (h : (Save t w).1 = none) :
    (∃ ks : List String, ks.Perm t.Known ∧ ks.Sorted strLE
        ∧ (Save t w).2.2.files "known.txt" = some (fileText ks))
    ∧ (∃ ss : List String, ss.Perm t.Skip ∧ ss.Sorted strLE
        ∧ (Save t w).2.2.files "skip.txt" = some (fileText ss))
    ∧ (Save t w).2.2.files "unknown.txt" = some (fileText t.Unknown) := by
  obtain ⟨w1, w2, w3, h1, h2, h3, hs⟩ := save_ok t w h
  have f1 := saveWords_files _ _ _ _ h1
  have f2 := saveWords_files _ _ _ _ h2
  have f3 := saveWords_files _ _ _ _ h3
  rw [hs]
  simp only
  refine ⟨⟨sortStrings t.Known, sortStrings_perm _, sortStrings_sorted _, ?_⟩,
    ⟨sortStrings t.Skip, sortStrings_perm _, sortStrings_sorted _, ?_⟩, ?_⟩
  · rw [f3, f2, f1]; simp
  · rw [f3]; simp
  · rw [f3, f2]; simp

/-- With `known.txt` holding `b`, `a`, the input `a`, `c` and the key `y`
for `c`, the run writes `a`, `b`, `c` to `known.txt`; Save on the
collections reached, Known being `b`, `a`, `c`, writes that text. -/
theorem save_writes_sorted_known_skip_witness :
    (run asciiEqualFold (termAsker (keys ['y'])) none 0 (disk "b\na\n" "" "")
        "words.txt" ["a", "c"] none).2.2.files "known.txt" = some "a\nb\nc\n"
    ∧ (Save ⟨["b", "a", "c"], [], []⟩ (disk "b\na\n" "" "")).1 = none
    ∧ (Save ⟨["b", "a", "c"], [], []⟩ (disk "b\na\n" "" "")).2.2.files "known.txt"
        = some "a\nb\nc\n"
    ∧ ((∃ ks : List String, ks.Perm ["b", "a", "c"] ∧ ks.Sorted strLE
        ∧ (Save ⟨["b", "a", "c"], [], []⟩ (disk "b\na\n" "" "")).2.2.files "known.txt"
          = some (fileText ks))
      ∧ (∃ ss : List String, ss.Perm [] ∧ ss.Sorted strLE
        ∧ (Save ⟨["b", "a", "c"], [], []⟩ (disk "b\na\n" "" "")).2.2.files "skip.txt"
          = some (fileText ss))
      ∧ (Save ⟨["b", "a", "c"], [], []⟩ (disk "b\na\n" "" "")).2.2.files "unknown.txt"
          = some (fileText [])) :=
  ⟨by decide, by decide, by decide,
    save_writes_sorted_known_skip ⟨["b", "a", "c"], [], []⟩ (disk "b\na\n" "" "")
      (by decide)⟩

/-! ## Reading a word file -/

theorem splitLines_ne_nil : ∀ l : List Char, splitLines l ≠ []
  | [] => by simp [splitLines]
  | c :: cs => by
    unfold splitLines
    split
    · simp
    · split <;> simp

theorem splitLines_append_newline : ∀ l : List Char,
    splitLines (l ++ ['\n']) = splitLines l ++ [[]]
  | [] => by simp [splitLines]
  | c :: cs => by
    have ih := splitLines_append_newline cs
    by_cases hc : c = '\n'
    · simp [splitLines, hc, ih]
    · rcases hs : splitLines cs with _ | ⟨x, xs⟩
      · exact absurd hs (splitLines_ne_nil cs)
      · rw [hs] at ih
        simp [splitLines, hc, ih, hs]

theorem splitLines_line : ∀ (x r : List Char), '\n' ∉ x →
    splitLines (x ++ '\n' :: r) = x :: splitLines r
  | [], r, _ => by simp [splitLines]
  | c :: cs, r, h => by
    have hc : c ≠ '\n' := fun e => h (by simp [e])
    have hcs : '\n' ∉ cs := fun e => h (List.mem_cons_of_mem _ e)
    have ih := splitLines_line cs r hcs
    simp [splitLines, hc, ih]

theorem Split_append_newline (s : String) : Split (s ++ "\n") = Split s ++ [""] := by
  have h : (s ++ "\n").data = s.data ++ ['\n'] := rfl
  simp only [Split, h, splitLines_append_newline, List.map_append]
  rfl

theorem parseWords_append_newline (s : String) : parseWords (s ++ "\n") = parseWords s := by
  unfold parseWords
  rw [Split_append_newline]
  exact List.rdropWhile_concat_pos _ _ _ (by simp)

theorem parseWords_getLast (s : String) : (parseWords s).getLast? ≠ some "" := by
  intro h
  have hne : parseWords s ≠ [] := by
    intro e; rw [e] at h; simp at h
  have hl := List.rdropWhile_last_not (fun word : String => decide (word = "")) (Split s) hne
  rw [List.getLast?_eq_getLast _ hne] at h
  have h2 : (parseWords s).getLast hne = "" := by simpa using h
  apply hl
  simp only [decide_eq_true_eq]
  exact h2

theorem rdropWhile_replicate (l : List String) :
    ∃ k, l = l.rdropWhile (fun word => word = "") ++ List.replicate k "" := by
  induction l using List.reverseRecOn with
  | nil => exact ⟨0, by simp⟩
  | append_singleton l a ih =>
    by_cases ha : a = ""
    · obtain ⟨k, hk⟩ := ih
      refine ⟨k + 1, ?_⟩
      rw [List.rdropWhile_concat_pos _ _ _ (by simp [ha]), List.replicate_succ',
        ← List.append_assoc, ← hk, ha]
    · refine ⟨0, ?_⟩
      rw [List.rdropWhile_concat_neg _ _ _ (by simp [ha])]
      simp

theorem readFile_ok (w w1 : World) (file buf : String)
    (h : readFile w file = (.ok buf, w1)) : w.files file = some buf := by
  unfold readFile at h
  have hs := sys_files w
  rcases hsys : w.sys with ⟨e, wa⟩
  rw [hsys] at h hs
  cases e with
  | some e => simp at h
  | none =>
    simp only at h hs
    rw [← hs]
    cases hf : wa.files file with
    | none => rw [hf] at h; simp at h
    | some c =>
      rw [hf] at h
      simp only at h
      rcases hsys2 : wa.sys with ⟨e2, wb⟩
      rw [hsys2] at h
      cases e2 with
      | some e => simp at h
      | none =>
        simp only [Prod.mk.injEq, Except.ok.injEq] at h
        rw [h.1]

theorem readFile_no_faults (w : World) (file buf : String)
    (hf : w.files file = some buf) (h0 : w.faults = []) :
    readFile w file = (.ok buf, w) := by
  have hsys : w.sys = (none, w) := by simp [World.sys, h0]
  simp [readFile, hsys, hf]

/-- C8. When the content `s` of the file has been read, loadWords returns
the split of `s` at newlines without its trailing empty entries: the split
is the returned list followed by empty entries only, and the returned list
does not end with an empty word. A file with the content `s` followed by
one more newline loads to the same list. -/
theorem loadWords_drops_trailing_empty (w w1 : World) (file s : String)
    (h : readFile w file = (.ok s, w1)) :
    ∃ words : List String,
      loadWords w file = (.ok words, w1)
      ∧ (∃ k, Split s = words ++ List.replicate k "")
      ∧ words.getLast? ≠ some ""
      ∧ ∀ (v v1 : World) (file2 : String),
          readFile v file2 = (.ok (s ++ "\n"), v1) → loadWords v file2 = (.ok words, v1) := by
  refine ⟨parseWords s, ?_, rdropWhile_replicate (Split s), parseWords_getLast s, ?_⟩
  · simp [loadWords, h]
  · intro v v1 file2 hv
    simp [loadWords, hv, parseWords_append_newline]

/-- The content `a`, newline, `b` and the same content with a final newline
both load to `a`, `b`. -/
theorem loadWords_drops_trailing_empty_witness :
    readFile (disk "a\nb" "" "") "known.txt" = (.ok "a\nb", disk "a\nb" "" "")
    ∧ (loadWords (disk "a\nb" "" "") "known.txt").1 = .ok ["a", "b"]
    ∧ (loadWords (disk "a\nb\n" "" "") "known.txt").1 = .ok ["a", "b"]
    ∧ ∃ words : List String,
      loadWords (disk "a\nb" "" "") "known.txt" = (.ok words, disk "a\nb" "" "")
      ∧ (∃ k, Split "a\nb" = words ++ List.replicate k "")
      ∧ words.getLast? ≠ some ""
      ∧ ∀ (v v1 : World) (file2 : String),
          readFile v file2 = (.ok ("a\nb" ++ "\n"), v1) →
          loadWords v file2 = (.ok words, v1) :=
  ⟨rfl, rfl, rfl,
    loadWords_drops_trailing_empty (disk "a\nb" "" "") (disk "a\nb" "" "") "known.txt"
      "a\nb" rfl⟩

/-! ## Saving, then loading -/

theorem splitLines_fileText : ∀ words : List String,
    (∀ x ∈ words, '\n' ∉ x.data) →
    splitLines (fileText words).data = words.map String.data ++ [[]]
  | [], _ => by simp [fileText, splitLines]
  | x :: rest, h => by
    have hx : '\n' ∉ x.data := h x (List.mem_cons_self _ _)
    have ih := splitLines_fileText rest (fun y hy => h y (List.mem_cons_of_mem _ hy))
    have hd : (fileText (x :: rest)).data = x.data ++ '\n' :: (fileText rest).data := by
      simp [fileText, String.data_append]
    rw [hd, splitLines_line _ _ hx, ih]
    simp

theorem map_mk_data (words : List String) :
    (words.map String.data).map String.mk = words := by
  induction words with
  | nil => rfl
  | cons x xs ih => simp [ih]

theorem parseWords_fileText (words : List String)
    (hnl : ∀ x ∈ words, '\n' ∉ x.data) (hlast : words.getLast? ≠ some "") :
    parseWords (fileText words) = words := by
  have hsplit : Split (fileText words) = words ++ [""] := by
    simp only [Split, splitLines_fileText words hnl, List.map_append, map_mk_data]
    rfl
  unfold parseWords
  rw [hsplit, List.rdropWhile_concat_pos _ _ _ (by simp)]
  rw [List.rdropWhile_eq_self_iff]
  intro hl hp
  apply hlast
  rw [List.getLast?_eq_getLast _ hl]
  simpa using hp

/-- C10. For a list of words without newline characters whose last word, if
there is one, is not empty: when saveWords returns nil the file holds every
word followed by one newline, and loadWords on that file returns the list
itself, both whenever the read succeeds and in fact when no system call
fails. -/
theorem save_then_load_roundtrip (words : List String)
    (hnl : ∀ x ∈ words, '\n' ∉ x.data) (hlast : words.getLast? ≠ some "")
    (w : World) (file : String) (hs : (saveWords w words file).1 = none) :
    (saveWords w words file).2.files file = some (fileText words)
    ∧ (∀ buf w2, readFile (saveWords w words file).2 file = (.ok buf, w2) →
        loadWords (saveWords w words file).2 file = (.ok words, w2))
    ∧ ((saveWords w words file).2.faults = [] →
        loadWords (saveWords w words file).2 file
          = (.ok words, (saveWords w words file).2)) := by
  have hs2 : saveWords w words file = (none, (saveWords w words file).2) :=
    Prod.ext hs rfl
  have hf := saveWords_files _ _ _ _ hs2
  have hfile : (saveWords w words file).2.files file = some (fileText words) := by
    rw [hf]; simp
  have hload : ∀ buf w2, readFile (saveWords w words file).2 file = (.ok buf, w2) →
      loadWords (saveWords w words file).2 file = (.ok words, w2) := by
    intro buf w2 hr
    have hb := readFile_ok _ _ _ _ hr
    rw [hfile] at hb
    have hbuf : buf = fileText words := by
      simpa using hb.symm
    subst hbuf
    simp [loadWords, hr, parseWords_fileText words hnl hlast]
  exact ⟨hfile, hload, fun h0 => hload _ _ (readFile_no_faults _ _ _ hfile h0)⟩

/-- The list `cat`, empty word, `dog` is written with one newline after each
of the three words and loads back; the empty list is written as an empty
file and loads back as the empty list. -/
theorem save_then_load_roundtrip_witness :
    (saveWords (disk "x" "" "") [] "known.txt").2.files "known.txt" = some ""
    ∧ (loadWords (saveWords (disk "x" "" "") [] "known.txt").2 "known.txt").1 = .ok []
    ∧ (saveWords (disk "x" "" "") ["cat", "", "dog"] "known.txt").1 = none
    ∧ (saveWords (disk "x" "" "") ["cat", "", "dog"] "known.txt").2.files "known.txt"
        = some "cat\n\ndog\n"
    ∧ ((saveWords (disk "x" "" "") ["cat", "", "dog"] "known.txt").2.files "known.txt"
        = some (fileText ["cat", "", "dog"])
      ∧ (∀ buf w2,
          readFile (saveWords (disk "x" "" "") ["cat", "", "dog"] "known.txt").2 "known.txt"
            = (.ok buf, w2) →
          loadWords (saveWords (disk "x" "" "") ["cat", "", "dog"] "known.txt").2 "known.txt"
            = (.ok ["cat", "", "dog"], w2))
      ∧ ((saveWords (disk "x" "" "") ["cat", "", "dog"] "known.txt").2.faults = [] →
          loadWords (saveWords (disk "x" "" "") ["cat", "", "dog"] "known.txt").2 "known.txt"
            = (.ok ["cat", "", "dog"],
                (saveWords (disk "x" "" "") ["cat", "", "dog"] "known.txt").2))) :=
  ⟨by decide, rfl, by decide, by decide,
    save_then_load_roundtrip ["cat", "", "dog"] (by decide) (by decide)
      (disk "x" "" "") "known.txt" (by decide)⟩

/-! ## Blank lines and surrounding white space -/

theorem rdropWhile_cons_neg (p : Char → Bool) (a : Char) (ha : p a = false) :
    ∀ t : List Char, List.rdropWhile p (a :: t) = a :: List.rdropWhile p t := by
  intro t
  induction t using List.reverseRecOn with
  | nil => simp [List.rdropWhile_singleton, ha]
  | append_singleton t x ih =>
    rw [← List.cons_append, List.rdropWhile_concat, List.rdropWhile_concat, ih]
    by_cases hx : p x = true
    · simp [hx]
    · simp [hx]

theorem dropWhile_rdropWhile_dropWhile (p : Char → Bool) : ∀ l : List Char,
    List.dropWhile p (List.rdropWhile p (List.dropWhile p l))
      = List.rdropWhile p (List.dropWhile p l)
  | [] => by simp
  | a :: t => by
    by_cases ha : p a = true
    · rw [List.dropWhile_cons_of_pos ha]
      exact dropWhile_rdropWhile_dropWhile p t
    · have ha2 : p a = false := by simpa using ha
      rw [List.dropWhile_cons_of_neg ha, rdropWhile_cons_neg p a ha2,
        List.dropWhile_cons_of_neg ha]

theorem TrimSpace_idempotent (x : String) : TrimSpace (TrimSpace x) = TrimSpace x := by
  unfold TrimSpace
  simp only
  rw [dropWhile_rdropWhile_dropWhile, List.rdropWhile_idempotent]

/-- C9. The scanner loop of run on a list of lines gives the same result as
on the list of the trimmed lines with the blank ones deleted: the same
returned error, the same Known, Unknown and Skip, the same state of the
Asker and log of the words it was asked, and the same files. -/
theorem scanLoop_trim_and_blank_irrelevant {σ : Type}
    (EqualFold : String → String → Bool) (A : Asker σ) (lines : List String) :
    ∀ (s : State σ) (w : World),
      scanLoop EqualFold A lines s w
        = scanLoop EqualFold A ((lines.map TrimSpace).filter (fun word => word ≠ "")) s w := by
  induction lines with
  | nil => intro s w; rfl
  | cons line rest ih =>
    intro s w
    by_cases hb : TrimSpace line = ""
    · simp only [List.map_cons, scanLoop, hb, if_true]
      rw [List.filter_cons_of_neg (by simp)]
      exact ih s w
    · rw [List.map_cons, List.filter_cons_of_pos (by simpa using hb)]
      simp only [scanLoop, hb, if_false, TrimSpace_idempotent]
      rcases Triage EqualFold A s (TrimSpace line) with ⟨e, s1⟩
      cases e with
      | some e => rfl
      | none => exact ih s1 w

/-! ## The driver stops at the first error of the Asker -/

theorem scanLoop_none_append {σ : Type} (EqualFold : String → String → Bool)
    (A : Asker σ) (rest : List String) : ∀ (pre : List String) (s s1 : State σ)
    (w w1 : World), scanLoop EqualFold A pre s w = (none, s1, w1) →
    w1 = w ∧ scanLoop EqualFold A (pre ++ rest) s w = scanLoop EqualFold A rest s1 w
  | [], s, s1, w, w1, h => by
    simp only [scanLoop, Prod.mk.injEq, true_and] at h
    obtain ⟨h1, h2⟩ := h
    subst h1; subst h2
    exact ⟨rfl, rfl⟩
  | line :: pre, s, s1, w, w1, h => by
    by_cases hb : TrimSpace line = ""
    · simp only [scanLoop, hb, if_true] at h
      have ih := scanLoop_none_append EqualFold A rest pre s s1 w w1 h
      refine ⟨ih.1, ?_⟩
      simp only [List.cons_append, scanLoop, hb, if_true]
      exact ih.2
    · simp only [scanLoop, hb, if_false] at h
      simp only [List.cons_append, scanLoop, hb, if_false]
      rcases ht : Triage EqualFold A s (TrimSpace line) with ⟨e, s2⟩
      rw [ht] at h
      cases e with
      | some e => simp at h
      | none =>
        simp only at h ⊢
        exact scanLoop_none_append EqualFold A rest pre s2 s1 w w1 h

/-- C6. Let the scanner loop pass the lines `pre` without error and reach
the state `s1`, and let the Asker return the error `e` for the next word,
which is not blank and matches no entry. Then on `pre`, that line and any
later lines `post` the loop returns `e`; the log of asked words ends with
that word, so no later word is asked; and the collections and files are
those that Save produces from the collections of `s1`. A run whose load
and open succeed with that starting state returns the same. -/
theorem scan_stops_and_saves_on_asker_error {σ : Type}
    (EqualFold : String → String → Bool) (A : Asker σ)
    (pre post : List String) (line : String) (s s1 : State σ) (w w1 : World)
    (st : WordState) (e : GoError) (a1 : σ)
    (hpre : scanLoop EqualFold A pre s w = (none, s1, w1))
    (hword : TrimSpace line ≠ "")
    (hno : ∀ x ∈ s1.t.Known ++ s1.t.Unknown ++ s1.t.Skip,
      EqualFold (TrimSpace line) x = false)
    (hask : A.Ask s1.asker (TrimSpace line) = ((st, some e), a1)) :
    scanLoop EqualFold A (pre ++ line :: post) s w
      = (some e, ⟨(Save s1.t w).2.1, a1, s1.asked ++ [TrimSpace line]⟩, (Save s1.t w).2.2)
    ∧ ∀ (w0 wa : World) (inputFile : String) (scanErr : Option GoError),
        s.asked = [] →
        load ⟨[], [], []⟩ w0 = (none, s.t, wa) →
        osOpen wa inputFile = (none, w) →
        run EqualFold A none s.asker w0 inputFile (pre ++ line :: post) scanErr
          = (some e, ⟨(Save s1.t w).2.1, a1, s1.asked ++ [TrimSpace line]⟩,
              (Save s1.t w).2.2) := by
  have hloop : scanLoop EqualFold A (pre ++ line :: post) s w
      = (some e, ⟨(Save s1.t w).2.1, a1, s1.asked ++ [TrimSpace line]⟩,
          (Save s1.t w).2.2) := by
    rw [(scanLoop_none_append EqualFold A (line :: post) pre s s1 w w1 hpre).2]
    have ht := triage_propagates_asker_error_core EqualFold A s1 (TrimSpace line) st e a1
      hno hask
    simp only [scanLoop, hword, if_false, ht]
  refine ⟨hloop, ?_⟩
  intro w0 wa inputFile scanErr hasked hload hopen
  have hs : ({ t := s.t, asker := s.asker, asked := [] } : State σ) = s := by
    cases s; simp_all
  simp only [run, hload, hopen, hs, hloop]
  simp

/-- The input `cat`, `dog`, `fish` on empty word files, with the key `y` for
`cat` and the key `q` for `dog`: the run returns the error of the Asker,
`fish` is never asked, `known.txt` holds `cat` and the other two files are
empty. -/
theorem scan_stops_and_saves_on_asker_error_witness :
    (run asciiEqualFold (termAsker (keys ['y'])) none 0 (disk "" "" "")
        "words.txt" ["cat", "dog", "fish"] none).1 = some "terminated"
    ∧ (run asciiEqualFold (termAsker (keys ['y'])) none 0 (disk "" "" "")
        "words.txt" ["cat", "dog", "fish"] none).2.1.asked = ["cat", "dog"]
    ∧ (run asciiEqualFold (termAsker (keys ['y'])) none 0 (disk "" "" "")
        "words.txt" ["cat", "dog", "fish"] none).2.2.files "known.txt" = some "cat\n"
    ∧ (run asciiEqualFold (termAsker (keys ['y'])) none 0 (disk "" "" "")
        "words.txt" ["cat", "dog", "fish"] none).2.2.files "unknown.txt" = some ""
    ∧ (run asciiEqualFold (termAsker (keys ['y'])) none 0 (disk "" "" "")
        "words.txt" ["cat", "dog", "fish"] none).2.2.files "skip.txt" = some ""
    ∧ scanLoop asciiEqualFold (termAsker (keys ['y'])) (["cat"] ++ "dog" :: ["fish"])
        ⟨⟨[], [], []⟩, 0, []⟩ (disk "" "" "")
      = (some "terminated",
          ⟨(Save ⟨["cat"], [], []⟩ (disk "" "" "")).2.1, 2, ["cat"] ++ [TrimSpace "dog"]⟩,
          (Save ⟨["cat"], [], []⟩ (disk "" "" "")).2.2)
    ∧ run asciiEqualFold (termAsker (keys ['y'])) none 0 (disk "" "" "") "words.txt"
        (["cat"] ++ "dog" :: ["fish"]) none
      = (some "terminated",
          ⟨(Save ⟨["cat"], [], []⟩ (disk "" "" "")).2.1, 2, ["cat"] ++ [TrimSpace "dog"]⟩,
          (Save ⟨["cat"], [], []⟩ (disk "" "" "")).2.2) :=
  ⟨by decide, by decide, by decide, by decide, by decide,
    (scan_stops_and_saves_on_asker_error asciiEqualFold (termAsker (keys ['y']))
      ["cat"] ["fish"] "dog" ⟨⟨[], [], []⟩, 0, []⟩ ⟨⟨["cat"], [], []⟩, 1, ["cat"]⟩
      (disk "" "" "") (disk "" "" "") Unknown "terminated" 2
      rfl (by decide) (by decide) rfl).1,
    (scan_stops_and_saves_on_asker_error asciiEqualFold (termAsker (keys ['y']))
      ["cat"] ["fish"] "dog" ⟨⟨[], [], []⟩, 0, []⟩ ⟨⟨["cat"], [], []⟩, 1, ["cat"]⟩
      (disk "" "" "") (disk "" "" "") Unknown "terminated" 2
      rfl (by decide) (by decide) rfl).2 (disk "" "" "") (disk "" "" "") "words.txt" none
      rfl rfl rfl⟩

/-! ## A read error of the scanner -/

/-- C7. The input file opens, the scanner yields `cat`, answered with the
key `y`, and then stops with a read error. The function run returns nil,
not an error: the variable it returns was last set by the successful open.
Save is not called either, so `known.txt` stays empty although Known
holds `cat`. -/
theorem run_returns_nil_on_scanner_error :
    (run asciiEqualFold (termAsker (keys ['y'])) none 0 (disk "" "" "") "words.txt"
        ["cat"] (some "bufio.Scanner: token too long")).1 = none
    ∧ (run asciiEqualFold (termAsker (keys ['y'])) none 0 (disk "" "" "") "words.txt"
        ["cat"] (some "bufio.Scanner: token too long")).2.1.t.Known = ["cat"]
    ∧ (run asciiEqualFold (termAsker (keys ['y'])) none 0 (disk "" "" "") "words.txt"
        ["cat"] (some "bufio.Scanner: token too long")).2.2.files "known.txt" = some "" := by
  decide

end WordTriage
